import Mathlib

/-!
Verification development for the CareCircle access-control and confidentiality
core.  The definitions below are a shallow embedding of the TypeScript source:

* `lib/crypto.ts` — `derivePatientKey`, `encryptText`, `decryptText`,
  `b64ToBytes` and their helpers;
* `app/app/account/permissions/page.tsx` — `effectiveAllowed`;
* `app/app/patients/[id]/permissions/page.tsx` — `isControllerRole`,
  `loadMemberOverrides`;
* `app/app/patients/[id]/summary/page.tsx` — `decryptMaybe`, `safeStr`,
  `loadEncSalt` and the two key-setup call sites.

Modelling conventions:

* JavaScript strings are Lean `String`s; the JS string methods used by the
  source (`toLowerCase`, `startsWith`, `slice`, `trim`) are re-implemented
  over `String.data` so that all definitions evaluate by kernel reduction.
  Only the ASCII behaviour matters here (role names, feature keys, the
  envelope marker are all ASCII).
* Dynamically-typed JS values (`any`) are modelled by the inductive `JValue`.
* Byte arrays (`Uint8Array`, `number[]`) are `List Nat`.
* `TextEncoder.encode` / `TextDecoder.decode` are modelled as the code-point
  maps `encBytes` / `decDecode`; the decoder never fails, mirroring the
  non-fatal UTF-8 decoder in the browser.
* WebCrypto AES-GCM is modelled as an ideal authenticated cipher: the
  ciphertext is the plaintext followed by an authentication tag that binds
  key, iv and plaintext injectively (`tagFn`), and decryption verifies the
  tag exactly.  This is the standard symbolic idealisation of an AEAD: real
  AES-GCM provides these properties computationally.
* Randomness is passed explicitly: `encryptText` receives the 12-byte iv the
  source draws from `crypto.getRandomValues`, and `derivePatientKey` receives
  the ambient entropy stream `rng` which its body (like the source body)
  never reads.
* Functions that can throw in JS return `Except Unit`; `Except.error ()`
  marks an exception escaping the function.
* Storage lookups are modelled by `Except String` results handed to the
  loading functions (`.error` = the backing relation is unreachable).
-/

/-! ## JS string primitives -/

/-- Lower-case one ASCII character, as `String.prototype.toLowerCase` does on
the ASCII range (the only range the permission code uses). -/
def jsCharLower (c : Char) : Char :=
  if 65 ≤ c.toNat ∧ c.toNat ≤ 90 then Char.ofNat (c.toNat + 32) else c

/-- Model of `s.toLowerCase()` on ASCII strings. -/
def jsToLower (s : String) : String := String.mk (s.data.map jsCharLower)

/-- Model of `s.startsWith(pre)`. -/
def jsStartsWith (s pre : String) : Bool := pre.data.isPrefixOf s.data

/-- Model of `s.slice(n)` for ASCII `n`-character prefixes. -/
def jsDrop (s : String) (n : Nat) : String := String.mk (s.data.drop n)

/-- ASCII whitespace, the part of the JS `trim`/`atob` whitespace set that can
occur in the data handled here. -/
def jsIsWhitespace (c : Char) : Bool :=
  c = ' ' ∨ c = '\t' ∨ c = '\n' ∨ c = '\x0c' ∨ c = '\r'

/-- Model of `s.trim()`. -/
def jsTrim (s : String) : String :=
  String.mk (((s.data.dropWhile jsIsWhitespace).reverse.dropWhile jsIsWhitespace).reverse)

/-- Decimal digit character. -/
def digitChar (n : Nat) : Char := Char.ofNat (48 + n)

/-- Decimal digits of `n`, fuel-structured so that it evaluates by kernel
reduction.  `fuel = n + 1` always suffices. -/
def digitsAux : Nat → Nat → List Char
  | 0, _ => []
  | fuel + 1, n => if n < 10 then [digitChar n] else digitsAux fuel (n / 10) ++ [digitChar (n % 10)]

/-- Decimal rendering of a natural number (model of JS number-to-string for
the non-negative integers stored in envelopes). -/
def natToString (n : Nat) : String := String.mk (digitsAux (n + 1) n)

/-! ## JS dynamic values -/

mutual

/-- A dynamically-typed JavaScript value, covering every shape the decrypt
path can receive (`PayloadLike` in `lib/crypto.ts` plus anything
`JSON.parse` can produce).  Arrays and objects carry their own spine types
(`JArray`, `JFields`) so that all recursion over them is structural. -/
inductive JValue where
  | null
  | undefined
  | bool (b : Bool)
  | num (n : Nat)
  | str (s : String)
  | arr (elems : JArray)
  | obj (fields : JFields)

/-- Spine of a JS array value. -/
inductive JArray where
  | nil
  | cons (head : JValue) (tail : JArray)

/-- Spine of a JS object value: ordered key/value fields. -/
inductive JFields where
  | nil
  | cons (key : String) (val : JValue) (tail : JFields)

end

/-- Build a `JArray` from a list of values. -/
def JArray.ofList : List JValue → JArray
  | [] => .nil
  | v :: vs => .cons v (JArray.ofList vs)

/-- Build `JFields` from a key/value list. -/
def JFields.ofList : List (String × JValue) → JFields
  | [] => .nil
  | (k, v) :: fs => .cons k v (JFields.ofList fs)

/-- JS truthiness of a `JValue`. -/
def jsTruthy : JValue → Bool
  | .null => false
  | .undefined => false
  | .bool b => b
  | .num n => n ≠ 0
  | .str s => ¬ s.data.isEmpty
  | .arr _ => true
  | .obj _ => true

mutual

/-- Model of `String(v)` for the value shapes that can reach it. -/
def jsToString : JValue → String
  | .null => "null"
  | .undefined => "undefined"
  | .bool true => "true"
  | .bool false => "false"
  | .num n => natToString n
  | .str s => s
  | .arr l => jsToStringArr l
  | .obj _ => "[object Object]"

/-- Comma-joined rendering of array elements (JS `Array.prototype.toString`). -/
def jsToStringArr : JArray → String
  | .nil => ""
  | .cons v .nil => jsToString v
  | .cons v tl => jsToString v ++ "," ++ jsToStringArr tl

end

mutual

/-- Model of `JSON.stringify(v)` (total: circular structures cannot arise in
this embedding, so the JS throw case never fires). -/
def jsonStringify : JValue → String
  | .null => "null"
  | .undefined => "null"
  | .bool true => "true"
  | .bool false => "false"
  | .num n => natToString n
  | .str s => "\"" ++ s ++ "\""
  | .arr l => "[" ++ jsonStringifyArr l ++ "]"
  | .obj fs => "\x7b" ++ jsonStringifyFields fs ++ "\x7d"

/-- Serialise array elements, comma separated. -/
def jsonStringifyArr : JArray → String
  | .nil => ""
  | .cons v .nil => jsonStringify v
  | .cons v tl => jsonStringify v ++ "," ++ jsonStringifyArr tl

/-- Serialise object fields, comma separated. -/
def jsonStringifyFields : JFields → String
  | .nil => ""
  | .cons k v .nil => "\"" ++ k ++ "\":" ++ jsonStringify v
  | .cons k v tl => "\"" ++ k ++ "\":" ++ jsonStringify v ++ "," ++ jsonStringifyFields tl

end

/-- Look up a key in object fields (first match, as JS objects built by
`JSON.parse` and object literals expose one binding per key). -/
def JFields.lookup : JFields → String → JValue
  | .nil, _ => .undefined
  | .cons k v tl, key => if k == key then v else JFields.lookup tl key

/-- Model of property access `v?.k` (absent property reads as `undefined`). -/
def getField (v : JValue) (k : String) : JValue :=
  match v with
  | .obj fs => fs.lookup k
  | _ => .undefined

/-! ## base64 (`atob` / `b64ToBytes`) -/

/-- Value of one base64 alphabet character. -/
def b64Val (c : Char) : Option Nat :=
  let n := c.toNat
  if 65 ≤ n ∧ n ≤ 90 then some (n - 65)
  else if 97 ≤ n ∧ n ≤ 122 then some (n - 97 + 26)
  else if 48 ≤ n ∧ n ≤ 57 then some (n - 48 + 52)
  else if c = '+' then some 62
  else if c = '/' then some 63
  else none

/-- Map every character to its 6-bit value; `none` if any character is outside
the alphabet (the case where `atob` throws `InvalidCharacterError`). -/
def b64Vals : List Char → Option (List Nat)
  | [] => some []
  | c :: cs =>
      match b64Val c, b64Vals cs with
      | some v, some vs => some (v :: vs)
      | _, _ => none

/-- Reassemble bytes from 6-bit groups, per the forgiving-base64 algorithm
(a trailing group of one 6-bit value is a syntax error). -/
def b64Assemble : List Nat → Option (List Nat)
  | [] => some []
  | [_] => none
  | [a, b] => some [a * 4 + b / 16]
  | [a, b, c] => some [a * 4 + b / 16, (b % 16) * 16 + c / 4]
  | a :: b :: c :: d :: rest =>
      match b64Assemble rest with
      | some bytes => some ([a * 4 + b / 16, (b % 16) * 16 + c / 4, (c % 4) * 64 + d] ++ bytes)
      | none => none

/-- Model of `b64ToBytes` from `lib/crypto.ts`: `atob` (WHATWG
forgiving-base64) followed by per-character `charCodeAt`.  Returns `none`
exactly when `atob` throws. -/
def b64ToBytes (b64 : String) : Option (List Nat) :=
  let cs := b64.data.filter (fun c => ¬ jsIsWhitespace c)
  let cs :=
    if cs.length % 4 = 0 then
      match cs.reverse with
      | '=' :: '=' :: rest => rest.reverse
      | '=' :: rest => rest.reverse
      | _ => cs
    else cs
  if cs.length % 4 = 1 then none
  else
    match b64Vals cs with
    | some vals => b64Assemble vals
    | none => none

/-! ## Idealised WebCrypto AES-GCM and key derivation -/

/-- Injective encoding of a byte list into one natural number. -/
def listEncode : List Nat → Nat
  | [] => 0
  | a :: l => Nat.pair a (listEncode l) + 1

/-- Model of a WebCrypto `CryptoKey`: the derived key material plus the
algorithm parameters it was created with. -/
structure CryptoKeyM where
  material : Nat
  alg : String
  keyLength : Nat
deriving DecidableEq

/-- Model of `TextEncoder.encode` (code-point bytes). -/
def encBytes (s : String) : List Nat := s.data.map Char.toNat

/-- Model of `TextDecoder.decode`: total, never throws (the browser decoder
substitutes replacement characters rather than failing). -/
def decDecode (bytes : List Nat) : String := String.mk (bytes.map Char.ofNat)

/-- Ideal HKDF-SHA-256: an injective pairing of key material, salt and info.
Models the `importKey`/`deriveKey` pipeline of `lib/crypto.ts`. -/
def hkdfSha256 (ikm salt info : List Nat) : Nat :=
  Nat.pair (listEncode ikm) (Nat.pair (listEncode salt) (listEncode info))

/-- Embedding of `derivePatientKey(patientId, serverSalt)` from
`lib/crypto.ts`: HKDF with the server salt as key material, the patient id as
the derivation salt and the fixed info string, producing a 256-bit AES-GCM
key.  `rng` is the ambient entropy stream available to WebCrypto; the source
body contains no randomness call, so the model never reads it. -/
def derivePatientKey (rng : List Nat) (patientId serverSalt : String) : CryptoKeyM :=
  let _ := rng
  { material := hkdfSha256 (encBytes serverSalt) (encBytes patientId)
      (encBytes "carecircle-patient-v1")
    alg := "AES-GCM"
    keyLength := 256 }

/-- Authentication tag of the ideal AEAD: binds key material, iv and
plaintext injectively (the 128-bit GCM tag, idealised as collision-free). -/
def tagFn (key : CryptoKeyM) (iv pt : List Nat) : Nat :=
  Nat.pair key.material (Nat.pair (listEncode iv) (listEncode pt))

/-- Ideal model of `crypto.subtle.encrypt({name: "AES-GCM", iv}, key, pt)`:
the ciphertext carries the plaintext and ends with the authentication tag. -/
def subtleEncrypt (key : CryptoKeyM) (iv pt : List Nat) : List Nat :=
  pt ++ [tagFn key iv pt]

/-- Ideal model of `crypto.subtle.decrypt`: verify the tag against key, iv
and carried body; `none` models the rejected promise (`OperationError`). -/
def subtleDecrypt (key : CryptoKeyM) (iv ct : List Nat) : Option (List Nat) :=
  match ct.getLast? with
  | none => none
  | some t =>
      let body := ct.dropLast
      if t = tagFn key iv body then some body else none

/-- Flip bit `j` of element `i` of a byte list. -/
def flipBitList (l : List Nat) (i j : Nat) : List Nat :=
  l.set i ((l.getD i 0) ^^^ (2 ^ j))

/-! ## Field codec (`encryptText` / `decryptText`) -/

/-- The versioned string-envelope marker `ENC_PREFIX = "enc:v1:"`. -/
def encV1 : String := "enc:v1:"

/-- A JS number array value. -/
def numArray (l : List Nat) : JValue := .arr (JArray.ofList (l.map .num))

/-- The envelope object shape `{iv: number[], data: number[]}`. -/
def envelopeWithData (iv data : List Nat) : JValue :=
  .obj (JFields.ofList [("iv", numArray iv), ("data", numArray data)])

/-- Embedding of `encryptText(key, text)` from `lib/crypto.ts`.  The source
draws `iv` from `crypto.getRandomValues(new Uint8Array(12))`; the model
receives that randomness explicitly. -/
def encryptText (key : CryptoKeyM) (iv : List Nat) (text : String) : JValue :=
  envelopeWithData iv (subtleEncrypt key iv (encBytes text))

/-- Are all elements numbers? -/
def JArray.allNums : JArray → Bool
  | .nil => true
  | .cons (.num _) tl => JArray.allNums tl
  | .cons _ _ => false

/-- The numeric elements of an array spine. -/
def JArray.nums : JArray → List Nat
  | .nil => []
  | .cons (.num n) tl => n :: JArray.nums tl
  | .cons _ tl => JArray.nums tl

/-- Does the `JValue` satisfy the source's `isNumArray` guard
(`Array.isArray(v) && v.every(x => typeof x === "number")`)? -/
def isNumArrayJ : JValue → Bool
  | .arr l => l.allNums
  | _ => false

/-- The numbers of a `JValue` array (meaningful when `isNumArrayJ` holds). -/
def numsOfJ : JValue → List Nat
  | .arr l => l.nums
  | _ => []

/-- Normalise one envelope field (`iv` or `data`/`ct`) to bytes, as
`decryptText` does: a number array is taken as bytes, a non-empty string goes
through `b64ToBytes` — which THROWS (`.error`) on invalid base64, because the
source calls it outside any try/catch — and anything else normalises to
`null`. -/
def fieldToBytes : JValue → Except Unit (Option (List Nat))
  | .arr l =>
      if isNumArrayJ (.arr l) then .ok (some (numsOfJ (.arr l))) else .ok none
  | .str s =>
      if s.data.isEmpty then .ok none
      else
        match b64ToBytes s with
        | some bytes => .ok (some bytes)
        | none => .error ()
  | _ => .ok none

/-- Render the original payload for the best-effort fallback branches of
`decryptText` (`typeof payload === "object" ? JSON.stringify(payload) :
String(payload)`).  `typeof null` is `"object"` in JS. -/
def stringifyOrString : JValue → String
  | .obj fs => jsonStringify (.obj fs)
  | .arr l => jsonStringify (.arr l)
  | .null => jsonStringify .null
  | v => jsToString v

/-- Model of the JS nullish-coalescing operator `a ?? b`. -/
def jsCoalesce (a b : JValue) : JValue :=
  match a with
  | .null => b
  | .undefined => b
  | v => v

/-- The object-handling phase of `decryptText` (everything after the string
envelope is unwrapped): pick `data ?? ct` and `iv`, normalise both to bytes,
fall back to the stringified payload when normalisation fails, otherwise
attempt AES-GCM decryption and fall back likewise when it rejects. -/
def decryptObjPhase (key : CryptoKeyM) (v : JValue) : Except Unit (Option String) :=
  let dataField := jsCoalesce (getField v "data") (getField v "ct")
  match fieldToBytes (getField v "iv"), fieldToBytes dataField with
  | .error e, _ => .error e
  | .ok _, .error e => .error e
  | .ok ivb, .ok datab =>
      match ivb, datab with
      | some ivBytes, some dataBytes =>
          match subtleDecrypt key ivBytes dataBytes with
          | some plain => .ok (some (decDecode plain))
          | none => .ok (some (stringifyOrString v))
      | _, _ => .ok (some (stringifyOrString v))

/-- Embedding of `decryptText(key, payload)` from `lib/crypto.ts`.
`jsonParse` is the platform `JSON.parse` wrapped by `safeJsonParse`
(`none` = parse error); the claims hold for every parser, so it is a
parameter.  The result is `.error ()` when the source would throw — which it
can, through the un-guarded `b64ToBytes` calls. -/
def decryptText (jsonParse : String → Option JValue) (key : CryptoKeyM)
    (payload : JValue) : Except Unit (Option String) :=
  match payload with
  | .null => .ok none
  | .undefined => .ok none
  | .str s =>
      if jsStartsWith s encV1 then
        match b64ToBytes (jsDrop s encV1.data.length) with
        | none => .error ()
        | some bytes =>
            let json := decDecode bytes
            match jsonParse json with
            | some parsed =>
                if jsTruthy parsed then decryptObjPhase key parsed else .ok (some s)
            | none => .ok (some s)
      else .ok (some s)
  | v => decryptObjPhase key v

/-! ## Clinician summary page: `safeStr`, `decryptMaybe`, salt and key setup -/

/-- Trim a string and map blank to `null` — the string half of `safeStr`. -/
def safeStrOfString (s : String) : Option String :=
  let t := jsTrim s
  if t.data.isEmpty then none else some t

/-- Embedding of `safeStr(v)` from the summary page. -/
def safeStr : JValue → Option String
  | .null => none
  | .undefined => none
  | v => safeStrOfString (jsToString v)

/-- `safeStr` applied to `decryptText`'s `string | null` result. -/
def safeStrOpt : Option String → Option String
  | none => none
  | some s => safeStrOfString s

/-- Embedding of `decryptMaybe(encrypted, plaintext)` from the clinician
summary page (the variant at the salt-aware call site; the other variant is
identical except its catch branch returns `"(Encrypted)"`). -/
def decryptMaybe (jsonParse : String → Option JValue) (key : Option CryptoKeyM)
    (encrypted plaintext : JValue) : Option String :=
  match key with
  | some k =>
      if jsTruthy encrypted then
        match decryptText jsonParse k encrypted with
        | .ok out => safeStrOpt out
        | .error _ => some "(Encrypted – unable to decrypt)"
      else safeStr plaintext
  | none =>
      if jsTruthy encrypted && ! jsTruthy plaintext then some "(Encrypted)"
      else safeStr plaintext

/-- Embedding of `loadEncSalt()`: prefer the `app_config` row when the query
succeeded and its value is truthy, otherwise the `NEXT_PUBLIC_ENC_SALT`
environment value (already defaulted to `""`). -/
def loadEncSalt (dbValue : Option JValue) (envSalt : String) : String :=
  match dbValue with
  | some v => if jsTruthy v then jsToString v else envSalt
  | none => envSalt

/-- Embedding of the key setup at the salt-aware summary call site:
`if (salt && salt.trim().length >= 8) key = derivePatientKey(...)` else the
page keeps `key = null`. -/
def summaryKeyFromDbSalt (rng : List Nat) (patientId salt : String) : Option CryptoKeyM :=
  if ¬ salt.data.isEmpty ∧ 8 ≤ (jsTrim salt).data.length then
    some (derivePatientKey rng patientId salt)
  else none

/-- Embedding of the key setup at the env-salt summary call site:
`if (ENC_SALT) key = derivePatientKey(patientId, ENC_SALT)` — only
truthiness is checked, with no length floor. -/
def summaryKeyFromEnvSalt (rng : List Nat) (patientId encSalt : String) : Option CryptoKeyM :=
  if ¬ encSalt.data.isEmpty then some (derivePatientKey rng patientId encSalt)
  else none

/-! ## Permission resolver and policy loading -/

/-- Row of `patient_role_feature_defaults` as typed on the account
permissions page. -/
structure RoleDefault where
  patient_id : String
  role : String
  feature_key : String
  allowed : Bool
deriving DecidableEq

/-- Row of `patient_member_feature_overrides` as typed on the account
permissions page. -/
structure MemberOverride where
  patient_id : String
  user_id : String
  feature_key : String
  allowed : Bool
deriving DecidableEq

/-- Embedding of `isControllerRole(role)` from the patient permissions page
(`role: string | null | undefined`; `none` models both nullish cases). -/
def isControllerRole (role : Option String) : Bool :=
  let r := jsToLower (role.getD "")
  r == "patient" || r == "guardian" || r == "legal_guardian" || r == "owner"

/-- Embedding of `effectiveAllowed(userId, role, featureKey)` from the
account permissions page, over the loaded override and default lists. -/
def effectiveAllowed (memberOverrides : List MemberOverride)
    (roleDefaults : List RoleDefault) (userId role featureKey : String) : Bool :=
  let r := jsToLower role
  if ["patient", "guardian", "legal_guardian", "owner"].contains r then true
  else
    match memberOverrides.find? (fun o => o.user_id == userId && o.feature_key == featureKey) with
    | some o => o.allowed
    | none =>
        match roleDefaults.find? (fun d => jsToLower d.role == r && d.feature_key == featureKey) with
        | some d => d.allowed
        | none => false

/-- Embedding of `loadMemberOverrides()` from the patient permissions page:
try `patient_member_feature_overrides`, fall back to
`permissions_member_overrides`, and when BOTH relations are unreachable set
the overrides list to `[]` ("Don't hard fail; overrides just won't show").
Each argument is the outcome of the corresponding table's select (rows
already normalised to the canonical shape). -/
def loadMemberOverrides (primary fallbackTable : Except String (List MemberOverride)) :
    List MemberOverride :=
  match primary with
  | .ok rows => rows
  | .error _ =>
      match fallbackTable with
      | .ok rows => rows
      | .error _ => []

/-! ## Concrete instances used by witnesses and counterexamples -/

/-- A concrete `JSON.parse` instantiation (the claims about `decryptText`
hold for every parser; witnesses need one fixed choice). -/
def jsonParse0 : String → Option JValue := fun _ => none

/-- A concrete content key. -/
def key0 : CryptoKeyM := { material := 0, alg := "AES-GCM", keyLength := 256 }

/-- A concrete content key (distinct material from `key2`). -/
def key1 : CryptoKeyM := { material := 1, alg := "AES-GCM", keyLength := 256 }

/-- A concrete content key (distinct material from `key1`). -/
def key2 : CryptoKeyM := { material := 2, alg := "AES-GCM", keyLength := 256 }

/-- A concrete member override row: deny `meds_view` for user `u1`. -/
def ov1 : MemberOverride :=
  { patient_id := "p1", user_id := "u1", feature_key := "meds_view", allowed := false }

/-- A concrete role default row: allow `meds_view` for role `family`. -/
def rd1 : RoleDefault :=
  { patient_id := "p1", role := "family", feature_key := "meds_view", allowed := true }

/-- A concrete envelope produced under `key0` whose ciphertext has one bit
flipped (bit 0 of byte 0). -/
def tamperedEnvelope0 : JValue :=
  envelopeWithData [1] (flipBitList (subtleEncrypt key0 [1] (encBytes "a")) 0 0)

/-! ## Helper lemmas -/

/-- String `==` is decidable equality. -/
lemma string_beq_eq_decide (a b : String) : (a == b) = decide (a = b) := rfl

/-- The controller list probed by `effectiveAllowed` agrees with
`isControllerRole`: both pages hardcode the same four controller roles. -/
lemma contains_controller_eq (role : String) :
    (["patient", "guardian", "legal_guardian", "owner"].contains (jsToLower role)) =
      isControllerRole (some role) := by
  simp [isControllerRole, List.contains_cons, string_beq_eq_decide, Bool.or_assoc]

/-- `listEncode` is injective. -/
lemma listEncode_inj : ∀ {l₁ l₂ : List Nat}, listEncode l₁ = listEncode l₂ → l₁ = l₂ := by
  intro l₁
  induction l₁ with
  | nil =>
      intro l₂ h
      cases l₂ with
      | nil => rfl
      | cons b t => simp [listEncode] at h
  | cons a t ih =>
      intro l₂ h
      cases l₂ with
      | nil => simp [listEncode] at h
      | cons b t' =>
          simp only [listEncode, Nat.add_right_cancel_iff] at h
          obtain ⟨h1, h2⟩ := Nat.pair_eq_pair.mp h
          rw [h1, ih h2]

/-- Flipping a bit always changes the value. -/
lemma xor_two_pow_ne (n j : Nat) : n ^^^ 2 ^ j ≠ n := by
  intro h
  have h2 : 2 ^ j = 0 := by
    calc 2 ^ j = (n ^^^ n) ^^^ 2 ^ j := by rw [Nat.xor_self, Nat.zero_xor]
    _ = n ^^^ (n ^^^ 2 ^ j) := Nat.xor_assoc n n (2 ^ j)
    _ = n ^^^ n := by rw [h]
    _ = 0 := Nat.xor_self n
  exact absurd h2 (Nat.pos_iff_ne_zero.mp (Nat.pos_pow_of_pos j (by norm_num)))

/-- The ideal AEAD decrypts its own ciphertext. -/
lemma subtleDecrypt_subtleEncrypt (k : CryptoKeyM) (iv pt : List Nat) :
    subtleDecrypt k iv (subtleEncrypt k iv pt) = some pt := by
  simp [subtleDecrypt, subtleEncrypt, List.getLast?_concat, List.dropLast_concat]

/-- The ideal AEAD rejects a ciphertext produced under different key
material. -/
lemma subtleDecrypt_wrong_material (k k₂ : CryptoKeyM) (iv pt : List Nat)
    (h : k.material ≠ k₂.material) :
    subtleDecrypt k iv (subtleEncrypt k₂ iv pt) = none := by
  simp only [subtleDecrypt, subtleEncrypt, List.getLast?_concat, List.dropLast_concat]
  rw [if_neg]
  intro hcontra
  exact h ((Nat.pair_eq_pair.mp hcontra.symm).1)

/-- The ideal AEAD rejects any ciphertext with one flipped bit. -/
lemma subtleDecrypt_flip (k : CryptoKeyM) (iv pt : List Nat) (i j : Nat)
    (h : i < (subtleEncrypt k iv pt).length) :
    subtleDecrypt k iv (flipBitList (subtleEncrypt k iv pt) i j) = none := by
  have hlen : (subtleEncrypt k iv pt).length = pt.length + 1 := by simp [subtleEncrypt]
  rw [hlen] at h
  rcases Nat.lt_succ_iff_lt_or_eq.mp h with hi | hi
  · -- the flipped bit is inside the carried body
    have hgetD : (pt ++ [tagFn k iv pt]).getD i 0 = pt.getD i 0 := by
      rw [List.getD_eq_getElem _ _ (by simp; omega), List.getD_eq_getElem _ _ hi]
      exact List.getElem_append_left hi
    have hflip : flipBitList (subtleEncrypt k iv pt) i j =
        pt.set i (pt.getD i 0 ^^^ 2 ^ j) ++ [tagFn k iv pt] := by
      rw [subtleEncrypt, flipBitList, hgetD, List.set_append, if_pos hi]
    rw [hflip]
    simp only [subtleDecrypt, List.getLast?_concat, List.dropLast_concat]
    rw [if_neg]
    intro hcontra
    have hbody := (Nat.pair_eq_pair.mp ((Nat.pair_eq_pair.mp hcontra).2)).2
    have hpt : pt = pt.set i (pt.getD i 0 ^^^ 2 ^ j) := listEncode_inj hbody
    have helem := congrArg (fun l => l.getD i 0) hpt
    simp only at helem
    rw [List.getD_eq_getElem _ _ hi,
      List.getD_eq_getElem _ _ (by rw [List.length_set]; exact hi),
      List.getElem_set_self] at helem
    exact xor_two_pow_ne (pt[i]) j helem.symm
  · -- the flipped bit is inside the authentication tag
    subst hi
    have hflip : flipBitList (subtleEncrypt k iv pt) pt.length j =
        pt ++ [tagFn k iv pt ^^^ 2 ^ j] := by
      rw [subtleEncrypt, flipBitList, List.set_append]
      have hgetD : (pt ++ [tagFn k iv pt]).getD pt.length 0 = tagFn k iv pt := by
        rw [List.getD_eq_getElem _ _ (by simp)]
        exact List.getElem_concat_length _ _ _ rfl _
      simp [hgetD]
    rw [hflip]
    simp only [subtleDecrypt, List.getLast?_concat, List.dropLast_concat]
    rw [if_neg]
    exact xor_two_pow_ne (tagFn k iv pt) j

/-- The symbolic text codec round-trips. -/
lemma decDecode_encBytes (s : String) : decDecode (encBytes s) = s := by
  simp only [decDecode, encBytes, List.map_map]
  have : (Char.ofNat ∘ Char.toNat) = id := by
    funext c
    exact Char.ofNat_toNat c
  rw [this, List.map_id]

/-- A number array passes the `isNumArray` guard. -/
lemma allNums_ofList_map (l : List Nat) : (JArray.ofList (l.map .num)).allNums = true := by
  induction l with
  | nil => rfl
  | cons a t ih => simpa [JArray.ofList, JArray.allNums] using ih

/-- Extracting the numbers of a number array gives the numbers back. -/
lemma nums_ofList_map (l : List Nat) : (JArray.ofList (l.map .num)).nums = l := by
  induction l with
  | nil => rfl
  | cons a t ih => simpa [JArray.ofList, JArray.nums] using ih

/-- `fieldToBytes` accepts a number-array field unchanged. -/
lemma fieldToBytes_numArray (l : List Nat) : fieldToBytes (numArray l) = .ok (some l) := by
  simp [fieldToBytes, numArray, isNumArrayJ, numsOfJ, allNums_ofList_map, nums_ofList_map]

/-- `decryptObjPhase` on a well-formed `{iv, data}` envelope reduces to the
ideal AEAD call with the stringified-payload fallback. -/
lemma decryptObjPhase_envelope_eq (k : CryptoKeyM) (iv data : List Nat) :
    decryptObjPhase k (envelopeWithData iv data) =
      match subtleDecrypt k iv data with
      | some plain => .ok (some (decDecode plain))
      | none => .ok (some (stringifyOrString (envelopeWithData iv data))) := by
  have hiv : getField (envelopeWithData iv data) "iv" = numArray iv := rfl
  have hdata : getField (envelopeWithData iv data) "data" = numArray data := rfl
  have hct : jsCoalesce (numArray data) (getField (envelopeWithData iv data) "ct") =
      numArray data := rfl
  rw [decryptObjPhase]
  rw [hiv, hdata, hct, fieldToBytes_numArray, fieldToBytes_numArray]

/-- `decryptText` dispatches object payloads to the object phase. -/
lemma decryptText_obj (jp : String → Option JValue) (k : CryptoKeyM) (fs : JFields) :
    decryptText jp k (.obj fs) = decryptObjPhase k (.obj fs) := rfl

/-- Round trip of `encryptText` / `decryptText` under one key. -/
lemma decryptText_encryptText (jp : String → Option JValue) (k : CryptoKeyM)
    (iv : List Nat) (s : String) :
    decryptText jp k (encryptText k iv s) = .ok (some s) := by
  show decryptObjPhase k (envelopeWithData iv (subtleEncrypt k iv (encBytes s))) = _
  rw [decryptObjPhase_envelope_eq, subtleDecrypt_subtleEncrypt]
  simp [decDecode_encBytes]

/-- When the AEAD rejects, `decryptText` on an `{iv, data}` envelope returns
the stringified payload (the catch branch of the source). -/
lemma decryptText_envelope_fail (jp : String → Option JValue) (k : CryptoKeyM)
    (iv data : List Nat) (h : subtleDecrypt k iv data = none) :
    decryptText jp k (envelopeWithData iv data) =
      .ok (some (stringifyOrString (envelopeWithData iv data))) := by
  show decryptObjPhase k (envelopeWithData iv data) = _
  rw [decryptObjPhase_envelope_eq, h]

/-- Decrypting an envelope produced under different key material falls back
to the stringified payload. -/
lemma decryptText_wrong_key (jp : String → Option JValue) (k k₂ : CryptoKeyM)
    (iv : List Nat) (s : String) (h : k.material ≠ k₂.material) :
    decryptText jp k (encryptText k₂ iv s) =
      .ok (some (stringifyOrString (encryptText k₂ iv s))) := by
  show decryptText jp k (envelopeWithData iv (subtleEncrypt k₂ iv (encBytes s))) =
    .ok (some (stringifyOrString (envelopeWithData iv (subtleEncrypt k₂ iv (encBytes s)))))
  exact decryptText_envelope_fail jp k iv _ (subtleDecrypt_wrong_material k k₂ iv (encBytes s) h)

/-- The object phase never returns the JS `null` result: every branch either
throws or produces a string. -/
lemma decryptObjPhase_ne_ok_none (k : CryptoKeyM) (v : JValue) :
    decryptObjPhase k v ≠ .ok none := by
  rw [decryptObjPhase]
  cases h1 : fieldToBytes (getField v "iv") with
  | error e => simp
  | ok ivb =>
      cases h2 : fieldToBytes (jsCoalesce (getField v "data") (getField v "ct")) with
      | error e => simp
      | ok datab =>
          cases ivb with
          | none => cases datab <;> simp
          | some ivBytes =>
              cases datab with
              | none => simp
              | some dataBytes =>
                  cases h3 : subtleDecrypt k ivBytes dataBytes <;> simp [h3]

/-! ## Claim theorems -/

/-- C1: for every patient scope, every member whose role is a controller role
and every feature key, permission resolution returns `true`, regardless of
any member override or role default configured for the member or their
role. -/
theorem controllers_always_allowed (memberOverrides : List MemberOverride)
    (roleDefaults : List RoleDefault) (userId role featureKey : String)
    (h : isControllerRole (some role) = true) :
    effectiveAllowed memberOverrides roleDefaults userId role featureKey = true := by
  have hcont : (["patient", "guardian", "legal_guardian", "owner"].contains (jsToLower role)) =
      true := by
    rw [contains_controller_eq]; exact h
  simp only [effectiveAllowed]
  rw [hcont]
  simp

/-- C1 witness: a member with role `patient` is allowed `meds_view` even with
a deny override and a deny role default configured. -/
theorem controllers_always_allowed_witness :
    isControllerRole (some "patient") = true ∧
    effectiveAllowed
      [{ patient_id := "p1", user_id := "u1", feature_key := "meds_view", allowed := false }]
      [{ patient_id := "p1", role := "patient", feature_key := "meds_view", allowed := false }]
      "u1" "patient" "meds_view" = true :=
  ⟨by decide, controllers_always_allowed _ _ "u1" "patient" "meds_view" (by decide)⟩

/-- C2: for a non-controller member, resolution returns the member override's
value when an override row exists for the (member, feature) pair — even when
a conflicting role default exists; otherwise the role default's value when
one exists for (role, feature); otherwise `false`. -/
theorem resolution_override_default_deny (memberOverrides : List MemberOverride)
    (roleDefaults : List RoleDefault) (userId role featureKey : String)
    (hc : isControllerRole (some role) = false) :
    (∀ o, o ∈ memberOverrides → o.user_id = userId → o.feature_key = featureKey →
       (∀ o', o' ∈ memberOverrides → o'.user_id = userId → o'.feature_key = featureKey → o' = o) →
       effectiveAllowed memberOverrides roleDefaults userId role featureKey = o.allowed)
    ∧ (∀ d, (∀ o, o ∈ memberOverrides → ¬(o.user_id = userId ∧ o.feature_key = featureKey)) →
       d ∈ roleDefaults → jsToLower d.role = jsToLower role → d.feature_key = featureKey →
       (∀ d', d' ∈ roleDefaults → jsToLower d'.role = jsToLower role →
         d'.feature_key = featureKey → d' = d) →
       effectiveAllowed memberOverrides roleDefaults userId role featureKey = d.allowed)
    ∧ ((∀ o, o ∈ memberOverrides → ¬(o.user_id = userId ∧ o.feature_key = featureKey)) →
       (∀ d, d ∈ roleDefaults → ¬(jsToLower d.role = jsToLower role ∧ d.feature_key = featureKey)) →
       effectiveAllowed memberOverrides roleDefaults userId role featureKey = false) := by
  have hcont : (["patient", "guardian", "legal_guardian", "owner"].contains (jsToLower role)) =
      false := by
    rw [contains_controller_eq]; exact hc
  refine ⟨?_, ?_, ?_⟩
  · intro o ho h1 h2 huniq
    have hsome : (memberOverrides.find?
        (fun o' => o'.user_id == userId && o'.feature_key == featureKey)).isSome := by
      rw [List.find?_isSome]
      exact ⟨o, ho, by simp [h1, h2]⟩
    obtain ⟨o₂, ho₂⟩ := Option.isSome_iff_exists.mp hsome
    have hpo₂ := List.find?_some ho₂
    have hmem₂ := List.mem_of_find?_eq_some ho₂
    simp only [Bool.and_eq_true, beq_iff_eq] at hpo₂
    have heq : o₂ = o := huniq o₂ hmem₂ hpo₂.1 hpo₂.2
    simp only [effectiveAllowed]
    rw [hcont, ho₂]
    simp [heq]
  · intro d hno hd h1 h2 huniq
    have hofind : memberOverrides.find?
        (fun o => o.user_id == userId && o.feature_key == featureKey) = none := by
      rw [List.find?_eq_none]
      intro x hx
      simp only [Bool.and_eq_true, beq_iff_eq, not_and]
      intro hx1 hx2
      exact hno x hx ⟨hx1, hx2⟩
    have hsome : (roleDefaults.find?
        (fun d' => jsToLower d'.role == jsToLower role && d'.feature_key == featureKey)).isSome := by
      rw [List.find?_isSome]
      exact ⟨d, hd, by simp [h1, h2]⟩
    obtain ⟨d₂, hd₂⟩ := Option.isSome_iff_exists.mp hsome
    have hpd₂ := List.find?_some hd₂
    have hmem₂ := List.mem_of_find?_eq_some hd₂
    simp only [Bool.and_eq_true, beq_iff_eq] at hpd₂
    have heq : d₂ = d := huniq d₂ hmem₂ hpd₂.1 hpd₂.2
    simp only [effectiveAllowed]
    rw [hcont, hofind, hd₂]
    simp [heq]
  · intro hno hnd
    have hofind : memberOverrides.find?
        (fun o => o.user_id == userId && o.feature_key == featureKey) = none := by
      rw [List.find?_eq_none]
      intro x hx
      simp only [Bool.and_eq_true, beq_iff_eq, not_and]
      intro hx1 hx2
      exact hno x hx ⟨hx1, hx2⟩
    have hdfind : roleDefaults.find?
        (fun d' => jsToLower d'.role == jsToLower role && d'.feature_key == featureKey) = none := by
      rw [List.find?_eq_none]
      intro x hx
      simp only [Bool.and_eq_true, beq_iff_eq, not_and]
      intro hx1 hx2
      exact hnd x hx ⟨hx1, hx2⟩
    simp only [effectiveAllowed]
    rw [hcont, hofind, hdfind]
    simp

/-- C2 witness: a `family` member with a deny override on `meds_view` is
denied even though the `family` role default allows it. -/
theorem resolution_override_default_deny_witness :
    isControllerRole (some "family") = false ∧
    effectiveAllowed [ov1] [rd1] "u1" "family" "meds_view" = false := by
  refine ⟨by decide, ?_⟩
  have h := (resolution_override_default_deny [ov1] [rd1] "u1" "family" "meds_view"
      (by decide)).1 ov1 (by simp) rfl rfl ?_
  · rw [h]
    rfl
  · intro o' hmem _ _
    simpa using hmem

/-- C3 counterexample: when both overrides relations are unreachable, the
page substitutes the empty overrides list and resolution evaluates to
`false` — the very value that encodes "denied".  There is no distinct
"resolution unavailable" outcome: the resolver's codomain is `Bool`. -/
theorem unavailable_store_reports_deny :
    loadMemberOverrides (.error "relation unreachable") (.error "relation unreachable") = [] ∧
    effectiveAllowed
      (loadMemberOverrides (.error "relation unreachable") (.error "relation unreachable"))
      [] "u1" "family" "meds_view" = false :=
  ⟨rfl, by decide⟩

/-- C3 amended: when both backing relations for member overrides fail, the
code resolves with the empty overrides list, so resolution proceeds to role
defaults or default-deny exactly as if no overrides existed; no distinct
unavailable signal is produced. -/
theorem unavailable_store_resolves_as_empty (e₁ e₂ : String)
    (roleDefaults : List RoleDefault) (userId role featureKey : String) :
    loadMemberOverrides (.error e₁) (.error e₂) = [] ∧
    effectiveAllowed (loadMemberOverrides (.error e₁) (.error e₂))
        roleDefaults userId role featureKey =
      effectiveAllowed [] roleDefaults userId role featureKey :=
  ⟨rfl, rfl⟩

/-- C4: for every content key, iv and non-empty plaintext, decrypting the
envelope produced by `encryptText` under the same key returns exactly the
plaintext as the clear result. -/
theorem encrypt_decrypt_roundtrip (jp : String → Option JValue) (k : CryptoKeyM)
    (iv : List Nat) (s : String) (h : s ≠ "") :
    decryptText jp k (encryptText k iv s) = .ok (some s) :=
  decryptText_encryptText jp k iv s

/-- C4 witness: round trip at a concrete key, iv and plaintext. -/
theorem encrypt_decrypt_roundtrip_witness :
    "hi" ≠ "" ∧ decryptText jsonParse0 key0 (encryptText key0 [1] "hi") = .ok (some "hi") :=
  ⟨by decide, encrypt_decrypt_roundtrip jsonParse0 key0 [1] "hi" (by decide)⟩

/-- C5 counterexample: flipping bit 0 of ciphertext byte 0 of an envelope of
`"a"` makes `decryptText` return an ordinary string (the JSON of the
tampered envelope) in the same channel as a successful decryption — not a
distinct `Unreadable` outcome — and that string differs from `"a"`. -/
theorem tampered_envelope_reports_string :
    decryptText jsonParse0 key0 tamperedEnvelope0 =
      .ok (some (stringifyOrString tamperedEnvelope0)) ∧
    stringifyOrString tamperedEnvelope0 ≠ "a" :=
  ⟨rfl, by decide⟩

/-- C5 amended: flipping any single bit of a produced envelope's ciphertext
is always detected — AES-GCM authentication fails, so no decrypted plaintext
is ever released — and `decryptText` then returns its in-band best-effort
fallback, the stringified tampered envelope, never the output of a
successful decryption. -/
theorem tamper_detected_with_fallback (jp : String → Option JValue) (k : CryptoKeyM)
    (iv : List Nat) (s : String) (i j : Nat)
    (h : i < (subtleEncrypt k iv (encBytes s)).length) :
    subtleDecrypt k iv (flipBitList (subtleEncrypt k iv (encBytes s)) i j) = none ∧
    decryptText jp k (envelopeWithData iv (flipBitList (subtleEncrypt k iv (encBytes s)) i j)) =
      .ok (some (stringifyOrString
        (envelopeWithData iv (flipBitList (subtleEncrypt k iv (encBytes s)) i j)))) := by
  have hd := subtleDecrypt_flip k iv (encBytes s) i j h
  exact ⟨hd, decryptText_envelope_fail jp k iv _ hd⟩

/-- C5 witness: tamper detection at a concrete key, iv, plaintext and bit
position. -/
theorem tamper_detected_with_fallback_witness :
    0 < (subtleEncrypt key0 [1] (encBytes "a")).length ∧
    (subtleDecrypt key0 [1] (flipBitList (subtleEncrypt key0 [1] (encBytes "a")) 0 0) = none ∧
     decryptText jsonParse0 key0
         (envelopeWithData [1] (flipBitList (subtleEncrypt key0 [1] (encBytes "a")) 0 0)) =
       .ok (some (stringifyOrString
         (envelopeWithData [1] (flipBitList (subtleEncrypt key0 [1] (encBytes "a")) 0 0))))) :=
  ⟨by decide, tamper_detected_with_fallback jsonParse0 key0 [1] "a" 0 0 (by decide)⟩

/-- C6: `decryptText` throws (the uncaught `atob` `InvalidCharacterError`
inside `b64ToBytes`) on an `enc:v1:`-envelope whose body is not valid
base64, and on an `{iv, data}` object whose fields are invalid-base64
strings — contradicting the function's own documentation, which promises it
will not throw. -/
theorem decrypt_throws_on_invalid_base64 :
    decryptText jsonParse0 key0 (.str "enc:v1:!!!!") = .error () ∧
    decryptText jsonParse0 key0
      (.obj (JFields.ofList [("iv", .str "!!!!"), ("data", .str "!!!!")])) = .error () :=
  ⟨rfl, rfl⟩

/-- C7 counterexample: a record carrying both an envelope (produced under a
different key, so decryption fails) and a legacy plaintext does NOT fall
back to the legacy plaintext: `decryptMaybe` returns the stringified
envelope instead. -/
theorem envelope_failure_ignores_legacy :
    jsTruthy (JValue.str "legacy-value") = true ∧
    decryptMaybe jsonParse0 (some key1) (encryptText key2 [3] "s") (.str "legacy-value") =
      safeStrOfString (stringifyOrString (encryptText key2 [3] "s")) ∧
    safeStrOfString (stringifyOrString (encryptText key2 [3] "s")) ≠ some "legacy-value" ∧
    safeStrOfString (stringifyOrString (encryptText key2 [3] "s")) ≠ none :=
  ⟨by decide, rfl, by decide, by decide⟩

/-- C7 amended: with a key and an envelope, the result is the decrypted
content (through `safeStr`) when decryption succeeds; when decryption fails
the result is `decryptText`'s stringified-envelope fallback and the legacy
plaintext is NOT consulted; with no key, an envelope and no legacy
plaintext, the result is the `"(Encrypted)"` redaction marker; with no key
and a truthy legacy plaintext, the result is the legacy plaintext (through
`safeStr`). -/
theorem decrypt_maybe_precedence (jp : String → Option JValue) (k k₂ : CryptoKeyM)
    (iv : List Nat) (s p : String) (env : JValue) :
    (decryptMaybe jp (some k) (encryptText k iv s) (.str p) = safeStrOfString s) ∧
    (k.material ≠ k₂.material →
      decryptMaybe jp (some k) (encryptText k₂ iv s) (.str p) =
        safeStrOfString (stringifyOrString (encryptText k₂ iv s))) ∧
    (jsTruthy env = true → decryptMaybe jp none env .null = some "(Encrypted)") ∧
    (jsTruthy (JValue.str p) = true → decryptMaybe jp none env (.str p) = safeStrOfString p) := by
  refine ⟨?_, ?_, ?_, ?_⟩
  · calc decryptMaybe jp (some k) (encryptText k iv s) (.str p)
        = (match decryptText jp k (encryptText k iv s) with
           | .ok out => safeStrOpt out
           | .error _ => some "(Encrypted – unable to decrypt)") := rfl
    _ = safeStrOfString s := by rw [decryptText_encryptText]; rfl
  · intro hmat
    calc decryptMaybe jp (some k) (encryptText k₂ iv s) (.str p)
        = (match decryptText jp k (encryptText k₂ iv s) with
           | .ok out => safeStrOpt out
           | .error _ => some "(Encrypted – unable to decrypt)") := rfl
    _ = safeStrOfString (stringifyOrString (encryptText k₂ iv s)) := by
        rw [decryptText_wrong_key jp k k₂ iv s hmat]; rfl
  · intro henv
    have hnull : jsTruthy JValue.null = false := rfl
    simp [decryptMaybe, henv, hnull]
  · intro hp
    simp [decryptMaybe, hp, safeStr, jsToString]

/-- C7 witness: the four precedence behaviours at concrete keys, envelope
and legacy plaintext. -/
theorem decrypt_maybe_precedence_witness :
    key1.material ≠ key2.material ∧
    jsTruthy (encryptText key2 [3] "s") = true ∧
    jsTruthy (JValue.str "legacy") = true ∧
    decryptMaybe jsonParse0 (some key1) (encryptText key1 [3] "s") (.str "legacy") =
      safeStrOfString "s" ∧
    decryptMaybe jsonParse0 (some key1) (encryptText key2 [3] "s") (.str "legacy") =
      safeStrOfString (stringifyOrString (encryptText key2 [3] "s")) ∧
    decryptMaybe jsonParse0 none (encryptText key2 [3] "s") .null = some "(Encrypted)" ∧
    decryptMaybe jsonParse0 none (encryptText key2 [3] "s") (.str "legacy") =
      safeStrOfString "legacy" := by
  refine ⟨by decide, by decide, by decide, ?_, ?_, ?_, ?_⟩
  · exact (decrypt_maybe_precedence jsonParse0 key1 key2 [3] "s" "legacy"
      (encryptText key2 [3] "s")).1
  · exact (decrypt_maybe_precedence jsonParse0 key1 key2 [3] "s" "legacy"
      (encryptText key2 [3] "s")).2.1 (by decide)
  · exact (decrypt_maybe_precedence jsonParse0 key1 key2 [3] "s" "legacy"
      (encryptText key2 [3] "s")).2.2.1 (by decide)
  · exact (decrypt_maybe_precedence jsonParse0 key1 key2 [3] "s" "legacy"
      (encryptText key2 [3] "s")).2.2.2 (by decide)

/-- C8: patient key derivation is deterministic — it reads nothing from the
ambient entropy stream, so any two calls with the same `(patient_id,
server_salt)` produce the same key — and the produced key is a 256-bit
AES-GCM content key. -/
theorem derive_patient_key_deterministic (rng₁ rng₂ : List Nat) (pid salt : String) :
    derivePatientKey rng₁ pid salt = derivePatientKey rng₂ pid salt ∧
    (derivePatientKey rng₁ pid salt).alg = "AES-GCM" ∧
    (derivePatientKey rng₁ pid salt).keyLength = 256 :=
  ⟨rfl, rfl, rfl⟩

/-- C9 counterexample: the env-salt call site derives and hands out a key
from the 3-character salt `"abc"` — the caller does not receive a
`KeyUnavailable` outcome even though the salt is below the 8-character
floor. -/
theorem weak_salt_still_derives_key :
    summaryKeyFromEnvSalt [] "p1" "abc" = some (derivePatientKey [] "p1" "abc") ∧
    (jsTrim "abc").data.length < 8 :=
  ⟨rfl, by decide⟩

/-- C9 amended: the 8-character salt floor is enforced only at the call site
that loads the salt from the database — there an absent or short salt yields
no key — while the env-salt call site checks only non-emptiness (an absent
env salt yields no key, but any non-empty salt, however short, derives a
key); `derivePatientKey` itself performs no length check. -/
theorem salt_floor_only_at_db_call_site (rng : List Nat) (pid salt : String)
    (h : (jsTrim salt).data.length < 8) :
    summaryKeyFromDbSalt rng pid salt = none ∧ summaryKeyFromEnvSalt rng pid "" = none := by
  constructor
  · rw [summaryKeyFromDbSalt, if_neg]
    rintro ⟨-, h8⟩
    omega
  · rfl

/-- C9 witness: the floor at the db-salt call site for the concrete short
salt `"abc"` and the empty env salt. -/
theorem salt_floor_only_at_db_call_site_witness :
    (jsTrim "abc").data.length < 8 ∧
    (summaryKeyFromDbSalt [] "p1" "abc" = none ∧ summaryKeyFromEnvSalt [] "p1" "" = none) :=
  ⟨by decide, salt_floor_only_at_db_call_site [] "p1" "abc" (by decide)⟩

/-- C10: a string payload that does not begin with `enc:v1:` passes through
`decryptText` unchanged, whatever the key; and `decryptText` returns `null`
exactly on the `null`/`undefined` payloads. -/
theorem plaintext_passthrough_and_null (jp : String → Option JValue) (k : CryptoKeyM)
    (s : String) (p : JValue) (h : jsStartsWith s encV1 = false) :
    decryptText jp k (.str s) = .ok (some s) ∧
    (decryptText jp k p = .ok none ↔ (p = JValue.null ∨ p = JValue.undefined)) := by
  constructor
  · simp [decryptText, h]
  · cases p with
    | null => simp [decryptText]
    | undefined => simp [decryptText]
    | bool b =>
        have hne := decryptObjPhase_ne_ok_none k (.bool b)
        simp [decryptText, hne]
    | num n =>
        have hne := decryptObjPhase_ne_ok_none k (.num n)
        simp [decryptText, hne]
    | str s' =>
        by_cases hs : jsStartsWith s' encV1 = true
        · cases hb : b64ToBytes (jsDrop s' encV1.length) with
          | none => simp [decryptText, hs, hb]
          | some bytes =>
              cases hj : jp (decDecode bytes) with
              | none => simp [decryptText, hs, hb, hj]
              | some parsed =>
                  by_cases ht : jsTruthy parsed = true
                  · have hne := decryptObjPhase_ne_ok_none k parsed
                    simp [decryptText, hs, hb, hj, ht, hne]
                  · simp only [Bool.not_eq_true] at ht
                    simp [decryptText, hs, hb, hj, ht]
        · simp only [Bool.not_eq_true] at hs
          simp [decryptText, hs]
    | arr l =>
        have hne := decryptObjPhase_ne_ok_none k (.arr l)
        simp [decryptText, hne]
    | obj fs =>
        have hne := decryptObjPhase_ne_ok_none k (.obj fs)
        simp [decryptText, hne]

/-- C10 witness: passthrough of a concrete non-envelope string and the
`null` ↔ nullish-payload equivalence at `null`. -/
theorem plaintext_passthrough_and_null_witness :
    jsStartsWith "hello" encV1 = false ∧
    (decryptText jsonParse0 key0 (.str "hello") = .ok (some "hello") ∧
     (decryptText jsonParse0 key0 JValue.null = .ok none ↔
       (JValue.null = JValue.null ∨ JValue.null = JValue.undefined))) :=
  ⟨by decide, plaintext_passthrough_and_null jsonParse0 key0 "hello" JValue.null (by decide)⟩
